import Mathlib

/-!
# go-queryset: method synthesis (`queryset/methods/queryset.go`)

A shallow embedding of the method-synthesis code of the QuerySet generator and
theorems about the text it assembles.

Conventions of the embedding.

* A Go `string` is a Lean `String`, that is, a sequence of Unicode scalar
  values (runes).  Every string the generator handles here is identifier or
  tag text taken from Go source files, which are valid UTF-8, so the
  conversions `[]rune(s)` and `string(r)` are the passage between a `String`
  and its list of characters.
* A Go function that may not return (a run-time panic, or `log.Fatalf`, which
  ends the process) returns `Except Failure _`; `Failure` tells which of the
  two happened.
* Struct embedding is a structure field named after the embedded type, and a
  promoted method is written out as the selector path Go resolves it to.
-/

namespace QuerySet

/-! ## Library functions used by the file -/

/-- The ways in which a function of this file fails to return. -/
inductive Failure where
  /-- The run-time panic of `r[0]` on an empty slice (index out of range). -/
  | indexOutOfRange
  /-- The process exit of `log.Fatalf("no operation for filter %q", name)`. -/
  | noOperationForFilter (name : String)
  deriving DecidableEq, Repr

deriving instance DecidableEq for Except

/-- Extra operands of `fmt.Sprintf`, as Go lists them inside `%!(EXTRA ...)`:
each one as `string=value`, separated by a comma and a space. -/
def sprintfExtra : List String → List Char
  | [] => []
  | [a] => "string=".data ++ a.data
  | a :: b :: rest => "string=".data ++ a.data ++ ", ".data ++ sprintfExtra (b :: rest)

/-- The scanning loop of `fmt.Sprintf` on the fragment of the format language
this file uses: literal text, `%%`, and the verb `%s` applied to string
operands.  A `%s` without an operand left prints `%!s(MISSING)`, a lone `%` at
the end prints `%!(NOVERB)`, and operands left over at the end are reported as
`%!(EXTRA string=..., ...)`.  No format string of this file contains another
verb or a flag; such a `%` is outside the fragment and is copied through. -/
def sprintfLoop : List Char → List String → List Char
  | [], [] => []
  | [], a :: rest => "%!(EXTRA ".data ++ sprintfExtra (a :: rest) ++ [')']
  | ['%'], args => "%!(NOVERB)".data ++ sprintfLoop [] args
  | '%' :: '%' :: fmt, args => '%' :: sprintfLoop fmt args
  | '%' :: 's' :: fmt, [] => "%!s(MISSING)".data ++ sprintfLoop fmt []
  | '%' :: 's' :: fmt, a :: rest => a.data ++ sprintfLoop fmt rest
  | c :: fmt, args => c :: sprintfLoop fmt args

/-- The Go call `fmt.Sprintf(format, args...)` with string operands. -/
def Sprintf (format : String) (args : List String) : String :=
  ⟨sprintfLoop format.data args⟩

/-- The Go function `unicode.ToLower`.  Its ASCII branch is the library's own
(`'A'..'Z'` are shifted by `'a' - 'A'`, every other ASCII rune is returned as
it is); above ASCII the library consults its case tables, which are taken here
as the parameter `caseTable`. -/
def unicodeToLower (caseTable : Char → Char) (r : Char) : Char :=
  if r.toNat ≤ 0x7F then
    if 'A'.toNat ≤ r.toNat ∧ r.toNat ≤ 'Z'.toNat then
      Char.ofNat (r.toNat + ('a'.toNat - 'A'.toNat))
    else r
  else caseTable r

/-- The Go function `strings.ToLower`: `unicode.ToLower` on every rune. -/
def stringsToLower (caseTable : Char → Char) (s : String) : String :=
  ⟨s.data.map (unicodeToLower caseTable)⟩

/-- The keywords of Go, the identifiers for which
`token.Lookup(ident).IsKeyword()` holds. -/
def goKeywords : List String :=
  ["break", "case", "chan", "const", "continue", "default", "defer", "else",
   "fallthrough", "for", "func", "go", "goto", "if", "import", "interface", "map",
   "package", "range", "return", "select", "struct", "switch", "type", "var"]

/-- The Go expression `token.Lookup(ident).IsKeyword()`. -/
def isKeyword (ident : String) : Bool :=
  decide (ident ∈ goKeywords)

/-! ## Where conditions -/

/-- The map literal `nameToOp` of `getWhereCondition`. -/
def nameToOp : List (String × String) :=
  [("eq", "="), ("ne", "!="), ("lt", "<"), ("lte", "<="), ("gt", ">"), ("gte", ">=")]

/-- Indexing a Go `map[string]string`: the value stored under the key, or the
zero value `""` when the key is absent. -/
def mapIndex (m : List (String × String)) (key : String) : String :=
  (m.lookup key).getD ""

/-- The function `getWhereCondition`: the comparison fragment of a filter
operation, or the `log.Fatalf` exit when the table has no operator for it. -/
def getWhereCondition (name : String) : Except Failure String :=
  let op := mapIndex nameToOp name
  if op = "" then
    .error (.noOperationForFilter name)
  else
    .ok (Sprintf "%s ?" [op])

/-! ## Traits declared outside this file

The method shapes below are assembled from small traits (receiver and name
declaration, argument list, generated body calling the ORM).  The traits in
this section are declared in a sibling file of the package; each is
represented by the values its constructor is called with. -/

/-- Modelled from the spec: the parsed struct handed over by the parsing
front-end (`parser.ParsedStruct`), of which this file reads the type name. -/
structure ParsedStruct where
  TypeName : String
  deriving DecidableEq, Repr

/-- Modelled from the spec: the description of one struct field
(`field.Info`), of which this file reads the name, the DB column name and the
type name. -/
structure Info where
  Name : String
  DBName : String
  TypeName : String
  deriving DecidableEq, Repr

/-- Modelled from the spec: the receiver declaration trait `structMethod`,
holding the receiver name and the receiver type name it is built from. -/
structure structMethod where
  receiverName : String
  receiverTypeName : String
  deriving DecidableEq, Repr

/-- Modelled from the spec: the constructor `newStructMethod`. -/
def newStructMethod (receiverName receiverTypeName : String) : structMethod :=
  { receiverName := receiverName, receiverTypeName := receiverTypeName }

/-- Modelled from the spec: the name declaration trait `namedMethod`. -/
structure namedMethod where
  name : String
  deriving DecidableEq, Repr

/-- Modelled from the spec: the constructor `newNamedMethod`. -/
def newNamedMethod (name : String) : namedMethod :=
  { name := name }

/-- Modelled from the spec: the name declaration trait `onFieldMethod` of a
method generated for one field: the operation name, the field name, and
whether the field name comes first in the method name. -/
structure onFieldMethod where
  namedMethod : namedMethod
  fieldName : String
  isFieldNameFirst : Bool
  deriving DecidableEq, Repr

/-- Modelled from the spec: the constructor `newOnFieldMethod`; the field name
comes first until `setFieldNameFirst` says otherwise. -/
def newOnFieldMethod (name fieldName : String) : onFieldMethod :=
  { namedMethod := newNamedMethod name, fieldName := fieldName, isFieldNameFirst := true }

/-- Modelled from the spec: the setter `setFieldNameFirst`. -/
def onFieldMethod.setFieldNameFirst (m : onFieldMethod) (isFieldNameFirst : Bool) :
    onFieldMethod :=
  { m with isFieldNameFirst := isFieldNameFirst }

/-- Modelled from the spec: the argument list trait of a method without
parameters. -/
structure noArgsMethod where
  deriving DecidableEq, Repr

/-- Modelled from the spec: the argument list trait of a method with one
parameter, its name and its type. -/
structure oneArgMethod where
  argName : String
  argTypeName : String
  deriving DecidableEq, Repr

/-- Modelled from the spec: the constructor `newOneArgMethod`. -/
def newOneArgMethod (argName argTypeName : String) : oneArgMethod :=
  { argName := argName, argTypeName := argTypeName }

/-- Modelled from the spec: the argument list trait of a method with several
parameters, in declaration order. -/
structure nArgsMethod where
  args : List oneArgMethod
  deriving DecidableEq, Repr

/-- Modelled from the spec: the variadic constructor `newNArgsMethod`. -/
def newNArgsMethod (args : List oneArgMethod) : nArgsMethod :=
  { args := args }

/-- Modelled from the spec: the body trait `callGormMethod`, a call of the ORM
method `gormMethodName` with the argument text `gormMethodArgs` on the
variable `gormVarName`. -/
structure callGormMethod where
  gormMethodName : String
  gormMethodArgs : String
  gormVarName : String
  deriving DecidableEq, Repr

/-- Modelled from the spec: the constructor `newCallGormMethod`. -/
def newCallGormMethod (name args varName : String) : callGormMethod :=
  { gormMethodName := name, gormMethodArgs := args, gormVarName := varName }

/-- Modelled from the spec: the setter `setGormMethodName`. -/
def callGormMethod.setGormMethodName (m : callGormMethod) (name : String) : callGormMethod :=
  { m with gormMethodName := name }

/-- Modelled from the spec: the setter `setGormMethodArgs`. -/
def callGormMethod.setGormMethodArgs (m : callGormMethod) (args : String) : callGormMethod :=
  { m with gormMethodArgs := args }

/-! ## Contexts -/

/-- The constant `qsReceiverName`. -/
def qsReceiverName : String := "qs"

/-- The constant `qsDbName`. -/
def qsDbName : String := qsReceiverName ++ ".db"

/-- The struct `QsStructContext`. -/
structure QsStructContext where
  s : ParsedStruct
  deriving DecidableEq, Repr

/-- The function `NewQsStructContext`. -/
def NewQsStructContext (s : ParsedStruct) : QsStructContext :=
  { s := s }

/-- The method `QsStructContext.qsTypeName`. -/
def QsStructContext.qsTypeName (ctx : QsStructContext) : String :=
  ctx.s.TypeName ++ "QuerySet"

/-- The struct `QsFieldContext`, a query set field context. -/
structure QsFieldContext where
  f : Info
  operationName : String
  QsStructContext : QsStructContext
  deriving DecidableEq, Repr

/-- The method `QsStructContext.FieldCtx`; the operation name is left at its
zero value. -/
def QsStructContext.FieldCtx (ctx : QsStructContext) (f : Info) : QsFieldContext :=
  { f := f, operationName := "", QsStructContext := ctx }

/-- The method `QsFieldContext.fieldName`. -/
def QsFieldContext.fieldName (ctx : QsFieldContext) : String :=
  ctx.f.Name

/-- The method `QsFieldContext.fieldDBName`. -/
def QsFieldContext.fieldDBName (ctx : QsFieldContext) : String :=
  ctx.f.DBName

/-- The method `QsFieldContext.fieldTypeName`. -/
def QsFieldContext.fieldTypeName (ctx : QsFieldContext) : String :=
  ctx.f.TypeName

/-- The method `qsTypeName` promoted to `QsFieldContext` from the embedded
`QsStructContext`. -/
def QsFieldContext.qsTypeName (ctx : QsFieldContext) : String :=
  ctx.QsStructContext.qsTypeName

/-- The method `QsFieldContext.onFieldMethod`. -/
def QsFieldContext.onFieldMethod (ctx : QsFieldContext) : onFieldMethod :=
  newOnFieldMethod ctx.operationName ctx.fieldName

/-- The method `QsFieldContext.WithOperationName`: the context with the
operation name changed. -/
def QsFieldContext.WithOperationName (ctx : QsFieldContext) (operationName : String) :
    QsFieldContext :=
  { ctx with operationName := operationName }

/-! ## Return type and receiver traits -/

/-- The struct `retQuerySetMethod`. -/
structure retQuerySetMethod where
  qsTypeName : String
  deriving DecidableEq, Repr

/-- The method `retQuerySetMethod.GetReturnValuesDeclaration`. -/
def retQuerySetMethod.GetReturnValuesDeclaration (m : retQuerySetMethod) : String :=
  m.qsTypeName

/-- The function `newRetQuerySetMethod`. -/
def newRetQuerySetMethod (qsTypeName : String) : retQuerySetMethod :=
  { qsTypeName := qsTypeName }

/-- The struct `baseQuerySetMethod`. -/
structure baseQuerySetMethod where
  structMethod : structMethod
  deriving DecidableEq, Repr

/-- The function `newBaseQuerySetMethod`. -/
def newBaseQuerySetMethod (qsTypeName : String) : baseQuerySetMethod :=
  { structMethod := newStructMethod qsReceiverName qsTypeName }

/-- The struct `chainedQuerySetMethod`. -/
structure chainedQuerySetMethod where
  baseQuerySetMethod : baseQuerySetMethod
  retQuerySetMethod : retQuerySetMethod
  deriving DecidableEq, Repr

/-- The function `newChainedQuerySetMethod`. -/
def newChainedQuerySetMethod (qsTypeName : String) : chainedQuerySetMethod :=
  { baseQuerySetMethod := newBaseQuerySetMethod qsTypeName,
    retQuerySetMethod := newRetQuerySetMethod qsTypeName }

/-- The method `QsFieldContext.chainedQuerySetMethod`. -/
def QsFieldContext.chainedQuerySetMethod (ctx : QsFieldContext) : chainedQuerySetMethod :=
  newChainedQuerySetMethod ctx.qsTypeName

/-- The struct `qsCallGormMethod`. -/
structure qsCallGormMethod where
  callGormMethod : callGormMethod
  deriving DecidableEq, Repr

/-- The function `newQsCallGormMethod`: the argument text is formatted with
`fmt.Sprintf` and the call goes to `qsDbName`. -/
def newQsCallGormMethod (name argsFmt : String) (argsArgs : List String) : qsCallGormMethod :=
  { callGormMethod := newCallGormMethod name (Sprintf argsFmt argsArgs) qsDbName }

/-- The method `qsCallGormMethod.GetBody`.  The helper `wrapToGormScope` and
the method `GetBody` of the embedded `callGormMethod` are declared outside this
file and are taken as the parameters `wrapToGormScope` and `callGormBody`. -/
def qsCallGormMethod.GetBody (wrapToGormScope : String → String)
    (callGormBody : QuerySet.callGormMethod → String) (m : qsCallGormMethod) : String :=
  wrapToGormScope (callGormBody m.callGormMethod)

/-! ## Argument names -/

/-- The function `LowercaseFirstRune`: lowercases the first rune of a string.
On the empty string the index `r[0]` is out of range and the function
panics. -/
def LowercaseFirstRune (caseTable : Char → Char) (s : String) : Except Failure String :=
  match s.data with
  | [] => .error .indexOutOfRange
  | r0 :: rest => .ok ⟨unicodeToLower caseTable r0 :: rest⟩

/-- The keys of the map `commonInitialisms`, each stored with the value
`true`. -/
def commonInitialismsKeys : List String :=
  ["ACL", "API", "ASCII", "CPU", "CSS", "DNS", "EOF", "GUID", "HTML", "HTTP",
   "HTTPS", "ID", "IP", "JSON", "LHS", "QPS", "RAM", "RHS", "RPC", "SLA", "SMTP",
   "SQL", "SSH", "TCP", "TLS", "TTL", "UDP", "UI", "UID", "UUID", "URI", "URL",
   "UTF8", "VM", "XML", "XMPP", "XSRF", "XSS"]

/-- Indexing the map `commonInitialisms`: `true` on its keys and the zero
value `false` elsewhere. -/
def commonInitialisms (key : String) : Bool :=
  decide (key ∈ commonInitialismsKeys)

/-- The function `fieldNameToArgName`. -/
def fieldNameToArgName (caseTable : Char → Char) (fieldName : String) :
    Except Failure String :=
  if commonInitialisms fieldName then
    .ok fieldName
  else do
    let argName ← LowercaseFirstRune caseTable fieldName
    if isKeyword argName then
      .ok (argName ++ "Value")
    else
      .ok argName

/-! ## Method shapes -/

/-- The struct `FieldOperationNoArgsMethod`, for unary operations: preload,
order by. -/
structure FieldOperationNoArgsMethod where
  qsCallGormMethod : qsCallGormMethod
  onFieldMethod : onFieldMethod
  noArgsMethod : noArgsMethod
  chainedQuerySetMethod : chainedQuerySetMethod
  deriving DecidableEq, Repr

/-- The function `newFieldOperationNoArgsMethod`. -/
def newFieldOperationNoArgsMethod (ctx : QsFieldContext) (transformFieldName : Bool) :
    FieldOperationNoArgsMethod :=
  let gormArgName := if transformFieldName then ctx.fieldDBName else ctx.fieldName
  let r : FieldOperationNoArgsMethod :=
    { onFieldMethod := ctx.onFieldMethod,
      qsCallGormMethod := newQsCallGormMethod ctx.operationName "\"%s\"" [gormArgName],
      noArgsMethod := {},
      chainedQuerySetMethod := ctx.chainedQuerySetMethod }
  { r with onFieldMethod := r.onFieldMethod.setFieldNameFirst false }

/-- The setter `setGormMethodName` promoted to `FieldOperationNoArgsMethod`
through `qsCallGormMethod.callGormMethod`. -/
def FieldOperationNoArgsMethod.setGormMethodName (r : FieldOperationNoArgsMethod)
    (name : String) : FieldOperationNoArgsMethod :=
  { r with qsCallGormMethod :=
      { callGormMethod := r.qsCallGormMethod.callGormMethod.setGormMethodName name } }

/-- The setter `setGormMethodArgs` promoted to `FieldOperationNoArgsMethod`
through `qsCallGormMethod.callGormMethod`. -/
def FieldOperationNoArgsMethod.setGormMethodArgs (r : FieldOperationNoArgsMethod)
    (args : String) : FieldOperationNoArgsMethod :=
  { r with qsCallGormMethod :=
      { callGormMethod := r.qsCallGormMethod.callGormMethod.setGormMethodArgs args } }

/-- The method `GetReturnValuesDeclaration` promoted to
`FieldOperationNoArgsMethod` through
`chainedQuerySetMethod.retQuerySetMethod`. -/
def FieldOperationNoArgsMethod.GetReturnValuesDeclaration (m : FieldOperationNoArgsMethod) :
    String :=
  m.chainedQuerySetMethod.retQuerySetMethod.GetReturnValuesDeclaration

/-- The struct `StructOperationOneArgMethod`, for struct operations with one
argument. -/
structure StructOperationOneArgMethod where
  namedMethod : namedMethod
  chainedQuerySetMethod : chainedQuerySetMethod
  oneArgMethod : oneArgMethod
  qsCallGormMethod : qsCallGormMethod
  deriving DecidableEq, Repr

/-- The function `newStructOperationOneArgMethod`. -/
def newStructOperationOneArgMethod (caseTable : Char → Char)
    (name argTypeName qsTypeName : String) : StructOperationOneArgMethod :=
  let argName := stringsToLower caseTable name
  { namedMethod := newNamedMethod name,
    chainedQuerySetMethod := newChainedQuerySetMethod qsTypeName,
    oneArgMethod := newOneArgMethod argName argTypeName,
    qsCallGormMethod := newQsCallGormMethod name argName [] }

/-- The method `GetReturnValuesDeclaration` promoted to
`StructOperationOneArgMethod`. -/
def StructOperationOneArgMethod.GetReturnValuesDeclaration (m : StructOperationOneArgMethod) :
    String :=
  m.chainedQuerySetMethod.retQuerySetMethod.GetReturnValuesDeclaration

/-- The struct `BinaryFilterMethod`, a binary filter method. -/
structure BinaryFilterMethod where
  chainedQuerySetMethod : chainedQuerySetMethod
  onFieldMethod : onFieldMethod
  oneArgMethod : oneArgMethod
  qsCallGormMethod : qsCallGormMethod
  deriving DecidableEq, Repr

/-- The function `NewBinaryFilterMethod`.  The argument name is computed
first; the operands of the composite literal follow in source order. -/
def NewBinaryFilterMethod (caseTable : Char → Char) (ctx : QsFieldContext) :
    Except Failure BinaryFilterMethod := do
  let argName ← fieldNameToArgName caseTable ctx.fieldName
  let whereCondition ← getWhereCondition ctx.operationName
  .ok { onFieldMethod := ctx.onFieldMethod,
        oneArgMethod := newOneArgMethod argName ctx.fieldTypeName,
        chainedQuerySetMethod := ctx.chainedQuerySetMethod,
        qsCallGormMethod := newQsCallGormMethod "Where" "\"`%s` %s\", %s"
          [ctx.fieldDBName, whereCondition, argName] }

/-- The method `GetReturnValuesDeclaration` promoted to
`BinaryFilterMethod`. -/
def BinaryFilterMethod.GetReturnValuesDeclaration (m : BinaryFilterMethod) : String :=
  m.chainedQuerySetMethod.retQuerySetMethod.GetReturnValuesDeclaration

/-- The struct `InFilterMethod`, which filters with an IN condition. -/
structure InFilterMethod where
  chainedQuerySetMethod : chainedQuerySetMethod
  onFieldMethod : onFieldMethod
  nArgsMethod : nArgsMethod
  qsCallGormMethod : qsCallGormMethod
  deriving DecidableEq, Repr

/-- The function `newInFilterMethodImpl`. -/
def newInFilterMethodImpl (caseTable : Char → Char) (ctx : QsFieldContext)
    (operationName sql : String) : Except Failure InFilterMethod := do
  let ctx := ctx.WithOperationName operationName
  let argName ← fieldNameToArgName caseTable ctx.fieldName
  let args := newNArgsMethod
    [newOneArgMethod argName ctx.fieldTypeName,
     newOneArgMethod (argName ++ "Rest") ("..." ++ ctx.fieldTypeName)]
  .ok { onFieldMethod := ctx.onFieldMethod,
        nArgsMethod := args,
        chainedQuerySetMethod := ctx.chainedQuerySetMethod,
        qsCallGormMethod := newQsCallGormMethod "Where" "\"`%s` %s (?)\", iArgs"
          [ctx.fieldDBName, sql] }

/-- The function `NewInFilterMethod`: the IN filter method. -/
def NewInFilterMethod (caseTable : Char → Char) (ctx : QsFieldContext) :
    Except Failure InFilterMethod :=
  newInFilterMethodImpl caseTable ctx "In" "IN"

/-- The function `NewNotInFilterMethod`: the NOT IN filter method. -/
def NewNotInFilterMethod (caseTable : Char → Char) (ctx : QsFieldContext) :
    Except Failure InFilterMethod :=
  newInFilterMethodImpl caseTable ctx "NotIn" "NOT IN"

/-- The method `GetReturnValuesDeclaration` promoted to `InFilterMethod`. -/
def InFilterMethod.GetReturnValuesDeclaration (m : InFilterMethod) : String :=
  m.chainedQuerySetMethod.retQuerySetMethod.GetReturnValuesDeclaration

/-- Modelled from the spec: the accessor `getArgName` of the argument list
trait, the name of the parameter at position `i` (the empty name when there is
none). -/
def nArgsMethod.getArgName (m : nArgsMethod) (i : Nat) : String :=
  ((m.args.get? i).map oneArgMethod.argName).getD ""

/-- The method `InFilterMethod.GetBody`: the template `tmpl`, which declares
the local variable `iArgs`, filled in with the two parameter names, followed
by the body of the embedded `qsCallGormMethod`. -/
def InFilterMethod.GetBody (wrapToGormScope : String → String)
    (callGormBody : callGormMethod → String) (m : InFilterMethod) : String :=
  Sprintf "iArgs := []interface\x7b\x7d\x7b%s\x7d\n\tfor _, arg := range %s \x7b\n\t\tiArgs = append(iArgs, arg)\n\t\x7d\n\t"
      [m.nArgsMethod.getArgName 0, m.nArgsMethod.getArgName 1] ++
    m.qsCallGormMethod.GetBody wrapToGormScope callGormBody

/-- The struct `UnaryFilterMethod`, a unary filter. -/
structure UnaryFilterMethod where
  onFieldMethod : onFieldMethod
  noArgsMethod : noArgsMethod
  chainedQuerySetMethod : chainedQuerySetMethod
  qsCallGormMethod : qsCallGormMethod
  deriving DecidableEq, Repr

/-- The function `newUnaryFilterMethod`. -/
def newUnaryFilterMethod (ctx : QsFieldContext) (op : String) : UnaryFilterMethod :=
  { onFieldMethod := ctx.onFieldMethod,
    noArgsMethod := {},
    qsCallGormMethod := newQsCallGormMethod "Where" "\"%s %s\"" [ctx.fieldDBName, op],
    chainedQuerySetMethod := ctx.chainedQuerySetMethod }

/-- The method `GetReturnValuesDeclaration` promoted to `UnaryFilterMethod`. -/
def UnaryFilterMethod.GetReturnValuesDeclaration (m : UnaryFilterMethod) : String :=
  m.chainedQuerySetMethod.retQuerySetMethod.GetReturnValuesDeclaration

/-! ## Concrete methods -/

/-- The function `NewPreloadMethod`. -/
def NewPreloadMethod (ctx : QsFieldContext) : FieldOperationNoArgsMethod :=
  newFieldOperationNoArgsMethod (ctx.WithOperationName "Preload") false

/-- The function `NewOrderAscByMethod`: the ascending order-by method. -/
def NewOrderAscByMethod (ctx : QsFieldContext) : FieldOperationNoArgsMethod :=
  let r := newFieldOperationNoArgsMethod (ctx.WithOperationName "OrderAscBy") true
  let r := r.setGormMethodName "Order"
  r.setGormMethodArgs (Sprintf "\"%s ASC\"" [ctx.fieldDBName])

/-- The function `NewOrderDescByMethod`: the descending order-by method. -/
def NewOrderDescByMethod (ctx : QsFieldContext) : FieldOperationNoArgsMethod :=
  let r := newFieldOperationNoArgsMethod (ctx.WithOperationName "OrderDescBy") true
  let r := r.setGormMethodName "Order"
  r.setGormMethodArgs (Sprintf "\"%s DESC\"" [ctx.fieldDBName])

/-- The function `NewLimitMethod`. -/
def NewLimitMethod (caseTable : Char → Char) (qsTypeName : String) :
    StructOperationOneArgMethod :=
  newStructOperationOneArgMethod caseTable "Limit" "int" qsTypeName

/-- The function `NewIsNullMethod`. -/
def NewIsNullMethod (ctx : QsFieldContext) : UnaryFilterMethod :=
  newUnaryFilterMethod (ctx.WithOperationName "IsNull") "IS NULL"

/-- The function `NewIsNotNullMethod`. -/
def NewIsNotNullMethod (ctx : QsFieldContext) : UnaryFilterMethod :=
  newUnaryFilterMethod (ctx.WithOperationName "IsNotNull") "IS NOT NULL"

/-! ## Auxiliary facts -/

theorem sprintf_where (op : String) : Sprintf "%s ?" [op] = op ++ " ?" := by
  apply String.ext
  simp [Sprintf, sprintfLoop]

theorem getWhereCondition_ok_iff (name r : String) :
    getWhereCondition name = .ok r ↔
      (name, r) ∈ [("eq", "= ?"), ("ne", "!= ?"), ("lt", "< ?"), ("lte", "<= ?"),
        ("gt", "> ?"), ("gte", ">= ?")] := by
  unfold getWhereCondition mapIndex nameToOp
  simp only [sprintf_where]
  by_cases h1 : name = "eq"
  · subst h1; simp [List.lookup, eq_comm]
  by_cases h2 : name = "ne"
  · subst h2; simp [List.lookup, eq_comm]
  by_cases h3 : name = "lt"
  · subst h3; simp [List.lookup, eq_comm]
  by_cases h4 : name = "lte"
  · subst h4; simp [List.lookup, eq_comm]
  by_cases h5 : name = "gt"
  · subst h5; simp [List.lookup, eq_comm]
  by_cases h6 : name = "gte"
  · subst h6; simp [List.lookup, eq_comm]
  have e1 : (name == "eq") = false := by simp [h1]
  have e2 : (name == "ne") = false := by simp [h2]
  have e3 : (name == "lt") = false := by simp [h3]
  have e4 : (name == "lte") = false := by simp [h4]
  have e5 : (name == "gt") = false := by simp [h5]
  have e6 : (name == "gte") = false := by simp [h6]
  simp [List.lookup, h1, h2, h3, h4, h5, h6, e1, e2, e3, e4, e5, e6]

theorem getWhereCondition_error_of_unknown (name : String)
    (h : name ∉ ["eq", "ne", "lt", "lte", "gt", "gte"]) :
    getWhereCondition name = .error (.noOperationForFilter name) := by
  simp only [List.mem_cons, List.mem_singleton, List.not_mem_nil, or_false, not_or] at h
  obtain ⟨h1, h2, h3, h4, h5, h6⟩ := h
  have e1 : (name == "eq") = false := by simp [h1]
  have e2 : (name == "ne") = false := by simp [h2]
  have e3 : (name == "lt") = false := by simp [h3]
  have e4 : (name == "lte") = false := by simp [h4]
  have e5 : (name == "gt") = false := by simp [h5]
  have e6 : (name == "gte") = false := by simp [h6]
  simp [getWhereCondition, mapIndex, nameToOp, List.lookup, e1, e2, e3, e4, e5, e6]

theorem getWhereCondition_returns_iff_mem (name : String) :
    (∃ r, getWhereCondition name = .ok r) ↔ name ∈ ["eq", "ne", "lt", "lte", "gt", "gte"] := by
  constructor
  · rintro ⟨r, hr⟩
    by_contra hn
    rw [getWhereCondition_error_of_unknown name hn] at hr
    cases hr
  · intro h
    simp only [List.mem_cons, List.mem_singleton, List.not_mem_nil, or_false] at h
    rcases h with h | h | h | h | h | h <;> subst h
    · exact ⟨"= ?", by decide⟩
    · exact ⟨"!= ?", by decide⟩
    · exact ⟨"< ?", by decide⟩
    · exact ⟨"<= ?", by decide⟩
    · exact ⟨"> ?", by decide⟩
    · exact ⟨">= ?", by decide⟩

theorem data_ne_nil_of_ne_empty {s : String} (h : s ≠ "") : s.data ≠ [] := by
  intro hd
  apply h
  apply String.ext
  simpa using hd

theorem LowercaseFirstRune_of_cons (caseTable : Char → Char) (s : String) (r0 : Char)
    (rest : List Char) (h : s.data = r0 :: rest) :
    LowercaseFirstRune caseTable s = .ok ⟨unicodeToLower caseTable r0 :: rest⟩ := by
  unfold LowercaseFirstRune
  rw [h]

theorem LowercaseFirstRune_empty (caseTable : Char → Char) :
    LowercaseFirstRune caseTable "" = .error .indexOutOfRange := by
  rfl

theorem LowercaseFirstRune_ok_of_ne_empty (caseTable : Char → Char) {s : String}
    (h : s ≠ "") :
    ∃ r0 rest, s.data = r0 :: rest ∧
      LowercaseFirstRune caseTable s = .ok ⟨unicodeToLower caseTable r0 :: rest⟩ := by
  cases hd : s.data with
  | nil => exact absurd hd (data_ne_nil_of_ne_empty h)
  | cons r0 rest => exact ⟨r0, rest, rfl, LowercaseFirstRune_of_cons caseTable s r0 rest hd⟩

theorem initialisms_not_keywords : ∀ k ∈ commonInitialismsKeys, k ∉ goKeywords := by
  decide

theorem keyword_value_not_keyword : ∀ k ∈ goKeywords, k ++ "Value" ∉ goKeywords := by
  decide

theorem empty_not_initialism : commonInitialisms "" = false := by
  decide

theorem fieldNameToArgName_initialism (caseTable : Char → Char) {n : String}
    (h : commonInitialisms n = true) : fieldNameToArgName caseTable n = .ok n := by
  simp [fieldNameToArgName, h]

theorem fieldNameToArgName_other (caseTable : Char → Char) {n l : String}
    (h : commonInitialisms n = false) (hl : LowercaseFirstRune caseTable n = .ok l) :
    fieldNameToArgName caseTable n = .ok (if isKeyword l then l ++ "Value" else l) := by
  simp only [fieldNameToArgName, h, hl]
  by_cases hk : isKeyword l = true <;> simp [hk, bind, Except.bind]

theorem fieldNameToArgName_empty (caseTable : Char → Char) :
    fieldNameToArgName caseTable "" = .error .indexOutOfRange := by
  rfl

theorem fieldNameToArgName_returns (caseTable : Char → Char) {n : String} (h : n ≠ "") :
    ∃ argName, fieldNameToArgName caseTable n = .ok argName := by
  by_cases hi : commonInitialisms n = true
  · exact ⟨n, fieldNameToArgName_initialism caseTable hi⟩
  · have hi : commonInitialisms n = false := by simpa using hi
    obtain ⟨r0, rest, _, hl⟩ := LowercaseFirstRune_ok_of_ne_empty caseTable h
    exact ⟨_, fieldNameToArgName_other caseTable hi hl⟩

theorem fieldNameToArgName_returns_iff (caseTable : Char → Char) (n : String) :
    (∃ argName, fieldNameToArgName caseTable n = .ok argName) ↔ n ≠ "" := by
  constructor
  · rintro ⟨a, ha⟩ hn
    subst hn
    rw [fieldNameToArgName_empty] at ha
    cases ha
  · exact fieldNameToArgName_returns caseTable

theorem NewBinaryFilterMethod_of_ok (caseTable : Char → Char) (ctx : QsFieldContext)
    {argName whereCondition : String}
    (ha : fieldNameToArgName caseTable ctx.fieldName = .ok argName)
    (hc : getWhereCondition ctx.operationName = .ok whereCondition) :
    NewBinaryFilterMethod caseTable ctx = .ok
      { onFieldMethod := ctx.onFieldMethod,
        oneArgMethod := newOneArgMethod argName ctx.fieldTypeName,
        chainedQuerySetMethod := ctx.chainedQuerySetMethod,
        qsCallGormMethod := newQsCallGormMethod "Where" "\"`%s` %s\", %s"
          [ctx.fieldDBName, whereCondition, argName] } := by
  simp [NewBinaryFilterMethod, ha, hc, bind, Except.bind]

theorem NewBinaryFilterMethod_of_error (caseTable : Char → Char) (ctx : QsFieldContext)
    {argName : String} {e : Failure}
    (ha : fieldNameToArgName caseTable ctx.fieldName = .ok argName)
    (hc : getWhereCondition ctx.operationName = .error e) :
    NewBinaryFilterMethod caseTable ctx = .error e := by
  simp [NewBinaryFilterMethod, ha, hc, bind, Except.bind]

theorem newInFilterMethodImpl_of_ok (caseTable : Char → Char) (ctx : QsFieldContext)
    (operationName sql : String) {argName : String}
    (ha : fieldNameToArgName caseTable ctx.fieldName = .ok argName) :
    newInFilterMethodImpl caseTable ctx operationName sql = .ok
      { onFieldMethod := newOnFieldMethod operationName ctx.fieldName,
        nArgsMethod := newNArgsMethod
          [newOneArgMethod argName ctx.fieldTypeName,
           newOneArgMethod (argName ++ "Rest") ("..." ++ ctx.fieldTypeName)],
        chainedQuerySetMethod := ctx.chainedQuerySetMethod,
        qsCallGormMethod := newQsCallGormMethod "Where" "\"`%s` %s (?)\", iArgs"
          [ctx.fieldDBName, sql] } := by
  have ha' : fieldNameToArgName caseTable (ctx.WithOperationName operationName).fieldName =
      .ok argName := ha
  simp only [newInFilterMethodImpl, ha', bind, Except.bind]
  rfl

theorem newInFilterMethodImpl_ok_inv (caseTable : Char → Char) (ctx : QsFieldContext)
    (operationName sql : String) {m : InFilterMethod}
    (hm : newInFilterMethodImpl caseTable ctx operationName sql = .ok m) :
    m.chainedQuerySetMethod = ctx.chainedQuerySetMethod := by
  by_cases hn : ctx.fieldName = ""
  · have he : fieldNameToArgName caseTable (ctx.WithOperationName operationName).fieldName =
        .error .indexOutOfRange := by
      show fieldNameToArgName caseTable ctx.fieldName = _
      rw [hn]; exact fieldNameToArgName_empty caseTable
    simp [newInFilterMethodImpl, he, bind, Except.bind] at hm
  · obtain ⟨a, ha⟩ := fieldNameToArgName_returns caseTable hn
    rw [newInFilterMethodImpl_of_ok caseTable ctx operationName sql ha] at hm
    cases hm
    rfl

theorem NewBinaryFilterMethod_ok_inv (caseTable : Char → Char) (ctx : QsFieldContext)
    {m : BinaryFilterMethod} (hm : NewBinaryFilterMethod caseTable ctx = .ok m) :
    m.chainedQuerySetMethod = ctx.chainedQuerySetMethod := by
  unfold NewBinaryFilterMethod at hm
  cases ha : fieldNameToArgName caseTable ctx.fieldName with
  | error e => simp [ha, bind, Except.bind] at hm
  | ok a =>
    cases hc : getWhereCondition ctx.operationName with
    | error e => simp [ha, hc, bind, Except.bind] at hm
    | ok c =>
      simp [ha, hc, bind, Except.bind] at hm
      subst hm
      rfl

theorem getWhereCondition_of_mem_nameToOp {name op : String} (h : (name, op) ∈ nameToOp) :
    getWhereCondition name = .ok (op ++ " ?") := by
  simp only [nameToOp, List.mem_cons, List.mem_singleton, List.not_mem_nil, or_false,
    Prod.mk.injEq] at h
  rcases h with ⟨h, e⟩ | ⟨h, e⟩ | ⟨h, e⟩ | ⟨h, e⟩ | ⟨h, e⟩ | ⟨h, e⟩ <;> subst h <;> subst e <;>
    decide

theorem sprintf_binary_filter (dbName op argName : String) :
    Sprintf "\"`%s` %s\", %s" [dbName, op ++ " ?", argName] =
      "\"`" ++ dbName ++ "` " ++ op ++ " ?\", " ++ argName := by
  apply String.ext
  simp [Sprintf, sprintfLoop]

theorem sprintf_in_filter (dbName sql : String) :
    Sprintf "\"`%s` %s (?)\", iArgs" [dbName, sql] =
      "\"`" ++ dbName ++ "` " ++ sql ++ " (?)\", iArgs" := by
  apply String.ext
  simp [Sprintf, sprintfLoop]

theorem sprintf_unary_filter (dbName op : String) :
    Sprintf "\"%s %s\"" [dbName, op] = "\"" ++ dbName ++ " " ++ op ++ "\"" := by
  apply String.ext
  simp [Sprintf, sprintfLoop]

theorem append_rest_ne_self (a : String) : a ≠ a ++ "Rest" := by
  intro h
  have hl := congrArg String.length h
  have h4 : "Rest".length = 4 := by decide
  simp only [String.length_append] at hl
  omega

theorem append_rest_ne_qs (a : String) : a ++ "Rest" ≠ "qs" := by
  intro h
  have hl := congrArg String.length h
  have h2 : "qs".length = 2 := by decide
  have h4 : "Rest".length = 4 := by decide
  simp only [String.length_append] at hl
  omega

theorem append_rest_ne_iArgs (a : String) : a ++ "Rest" ≠ "iArgs" := by
  intro h
  have hd := congrArg (fun s : String => s.data.reverse) h
  simp at hd

theorem append_value_ne_qs (a : String) : a ++ "Value" ≠ "qs" := by
  intro h
  have hl := congrArg String.length h
  have h2 : "qs".length = 2 := by decide
  have h5 : "Value".length = 5 := by decide
  simp only [String.length_append] at hl
  omega

theorem append_value_ne_iArgs (a : String) : a ++ "Value" ≠ "iArgs" := by
  intro h
  have hd := congrArg (fun s : String => s.data.reverse) h
  simp at hd

theorem initialisms_not_local_names :
    ∀ k ∈ commonInitialismsKeys, k ≠ "qs" ∧ k ≠ "iArgs" := by
  decide

theorem sprintf_in_body (arg0 arg1 : String) :
    Sprintf "iArgs := []interface\x7b\x7d\x7b%s\x7d\n\tfor _, arg := range %s \x7b\n\t\tiArgs = append(iArgs, arg)\n\t\x7d\n\t"
        [arg0, arg1] =
      "iArgs := []interface\x7b\x7d\x7b" ++ arg0 ++ "\x7d\n\tfor _, arg := range " ++ arg1 ++
        " \x7b\n\t\tiArgs = append(iArgs, arg)\n\t\x7d\n\t" := by
  apply String.ext
  simp [Sprintf, sprintfLoop]

theorem fieldNameToArgName_apart (caseTable : Char → Char) (N : String)
    (hN : N ≠ "") :
    ∃ a l, fieldNameToArgName caseTable N = .ok a ∧ LowercaseFirstRune caseTable N = .ok l ∧
      a ≠ a ++ "Rest" ∧ a ++ "Rest" ≠ qsReceiverName ∧ a ++ "Rest" ≠ "iArgs" ∧
      (l ≠ qsReceiverName → a ≠ qsReceiverName) ∧ (l ≠ "iArgs" → a ≠ "iArgs") := by
  obtain ⟨r0, rest, -, hl⟩ := LowercaseFirstRune_ok_of_ne_empty caseTable hN
  by_cases hi : commonInitialisms N = true
  · obtain ⟨h1, h2⟩ := initialisms_not_local_names N (by simpa [commonInitialisms] using hi)
    exact ⟨N, _, fieldNameToArgName_initialism caseTable hi, hl, append_rest_ne_self _,
      append_rest_ne_qs _, append_rest_ne_iArgs _, fun _ => h1, fun _ => h2⟩
  · have hi : commonInitialisms N = false := by simpa using hi
    by_cases hk : isKeyword ⟨unicodeToLower caseTable r0 :: rest⟩ = true
    · exact ⟨_, _, by rw [fieldNameToArgName_other caseTable hi hl, if_pos hk], hl,
        append_rest_ne_self _, append_rest_ne_qs _, append_rest_ne_iArgs _,
        fun _ => append_value_ne_qs _, fun _ => append_value_ne_iArgs _⟩
    · have hk : isKeyword ⟨unicodeToLower caseTable r0 :: rest⟩ = false := by simpa using hk
      exact ⟨_, _, by rw [fieldNameToArgName_other caseTable hi hl]; simp [hk], hl,
        append_rest_ne_self _, append_rest_ne_qs _, append_rest_ne_iArgs _,
        fun h => h, fun h => h⟩

/-! ## Where conditions: the operator table -/

/-- C2: `getWhereCondition` sends the six filter operation names to the SQL
comparison fragments `= ?`, `!= ?`, `< ?`, `<= ?`, `> ?`, `>= ?`; every result
it returns is the operator of the name in `nameToOp` followed by one space and
one `?`, and two names with the same fragment are the same name. -/
theorem getWhereCondition_table :
    getWhereCondition "eq" = .ok "= ?" ∧ getWhereCondition "ne" = .ok "!= ?" ∧
    getWhereCondition "lt" = .ok "< ?" ∧ getWhereCondition "lte" = .ok "<= ?" ∧
    getWhereCondition "gt" = .ok "> ?" ∧ getWhereCondition "gte" = .ok ">= ?" ∧
    (∀ name r, getWhereCondition name = .ok r →
      ∃ op, (name, op) ∈ nameToOp ∧ op ∈ ["=", "!=", "<", "<=", ">", ">="] ∧
        r = op ++ " ?") ∧
    (∀ n₁ n₂ r, getWhereCondition n₁ = .ok r → getWhereCondition n₂ = .ok r → n₁ = n₂) := by
  refine ⟨by decide, by decide, by decide, by decide, by decide, by decide, ?_, ?_⟩
  · intro name r h
    rw [getWhereCondition_ok_iff] at h
    simp only [List.mem_cons, List.mem_singleton, List.not_mem_nil, or_false,
      Prod.mk.injEq] at h
    rcases h with ⟨h, e⟩ | ⟨h, e⟩ | ⟨h, e⟩ | ⟨h, e⟩ | ⟨h, e⟩ | ⟨h, e⟩ <;> subst h <;> subst e
    · exact ⟨"=", by decide, by decide, by decide⟩
    · exact ⟨"!=", by decide, by decide, by decide⟩
    · exact ⟨"<", by decide, by decide, by decide⟩
    · exact ⟨"<=", by decide, by decide, by decide⟩
    · exact ⟨">", by decide, by decide, by decide⟩
    · exact ⟨">=", by decide, by decide, by decide⟩
  · intro n₁ n₂ r h₁ h₂
    rw [getWhereCondition_ok_iff] at h₁ h₂
    simp only [List.mem_cons, List.mem_singleton, List.not_mem_nil, or_false,
      Prod.mk.injEq] at h₁ h₂
    rcases h₁ with ⟨h, e⟩ | ⟨h, e⟩ | ⟨h, e⟩ | ⟨h, e⟩ | ⟨h, e⟩ | ⟨h, e⟩ <;> subst h <;> subst e <;>
      simp at h₂ <;> exact h₂.symm

/-! ## Argument names: reserved words and initialisms -/

/-- C3: for every non-empty field name, `fieldNameToArgName` returns an
argument name, and that name is none of the 25 Go keywords; the field `Type`
yields `typeValue`. -/
theorem fieldNameToArgName_not_keyword (caseTable : Char → Char) (fieldName : String)
    (h : fieldName ≠ "") :
    (∃ argName, fieldNameToArgName caseTable fieldName = .ok argName ∧
      argName ∉ goKeywords ∧ isKeyword argName = false) ∧
    fieldNameToArgName caseTable "Type" = .ok "typeValue" := by
  refine ⟨?_, ?_⟩
  · by_cases hi : commonInitialisms fieldName = true
    · refine ⟨fieldName, fieldNameToArgName_initialism caseTable hi, ?_⟩
      have hk : fieldName ∉ goKeywords :=
        initialisms_not_keywords fieldName (by simpa [commonInitialisms] using hi)
      exact ⟨hk, by simpa [isKeyword] using hk⟩
    · have hi : commonInitialisms fieldName = false := by simpa using hi
      obtain ⟨r0, rest, _, hl⟩ := LowercaseFirstRune_ok_of_ne_empty caseTable h
      rw [fieldNameToArgName_other caseTable hi hl]
      by_cases hk : isKeyword ⟨unicodeToLower caseTable r0 :: rest⟩ = true
      · have hm : (⟨unicodeToLower caseTable r0 :: rest⟩ : String) ∈ goKeywords := by
          simpa [isKeyword] using hk
        have hv := keyword_value_not_keyword _ hm
        exact ⟨_, by rw [if_pos hk], hv, by simpa [isKeyword] using hv⟩
      · have hk : isKeyword ⟨unicodeToLower caseTable r0 :: rest⟩ = false := by simpa using hk
        have hm : (⟨unicodeToLower caseTable r0 :: rest⟩ : String) ∉ goKeywords := by
          simpa [isKeyword] using hk
        exact ⟨_, by simp [hk], hm, hk⟩
  · simp [fieldNameToArgName, LowercaseFirstRune, unicodeToLower, commonInitialisms,
      commonInitialismsKeys, isKeyword, goKeywords, bind, Except.bind]

/-- Witness of C3 at the field name `Type`. -/
theorem fieldNameToArgName_not_keyword_witness :
    "Type" ≠ "" ∧
    ((∃ argName, fieldNameToArgName id "Type" = .ok argName ∧
      argName ∉ goKeywords ∧ isKeyword argName = false) ∧
    fieldNameToArgName id "Type" = .ok "typeValue") :=
  ⟨by decide, fieldNameToArgName_not_keyword id "Type" (by decide)⟩

/-- C4: for every non-empty field name `n`, `fieldNameToArgName n` is `n`
itself when `n` is a key of the initialism table; otherwise it is
`LowercaseFirstRune n` followed by `Value` when that is a Go keyword, and
`LowercaseFirstRune n` otherwise.  The table is looked up with the whole name,
case-sensitively. -/
theorem fieldNameToArgName_cases (caseTable : Char → Char) (n : String) (h : n ≠ "") :
    (n ∈ commonInitialismsKeys → fieldNameToArgName caseTable n = .ok n) ∧
    (n ∉ commonInitialismsKeys →
      ∃ l, LowercaseFirstRune caseTable n = .ok l ∧
        (isKeyword l = true → fieldNameToArgName caseTable n = .ok (l ++ "Value")) ∧
        (isKeyword l = false → fieldNameToArgName caseTable n = .ok l)) ∧
    (commonInitialisms n = true ↔ n ∈ commonInitialismsKeys) ∧
    (fieldNameToArgName caseTable "ID" = .ok "ID" ∧
      fieldNameToArgName caseTable "URL" = .ok "URL" ∧
      fieldNameToArgName caseTable "Name" = .ok "name" ∧
      fieldNameToArgName caseTable "UserID" = .ok "userID") ∧
    (commonInitialisms "id" = false ∧ commonInitialisms "Id" = false ∧
      commonInitialisms "UserID" = false ∧ commonInitialisms "ID " = false) := by
  refine ⟨?_, ?_, ?_, ?_, ?_⟩
  · intro hi
    exact fieldNameToArgName_initialism caseTable (by simpa [commonInitialisms] using hi)
  · intro hi
    have hi : commonInitialisms n = false := by simpa [commonInitialisms] using hi
    obtain ⟨r0, rest, _, hl⟩ := LowercaseFirstRune_ok_of_ne_empty caseTable h
    refine ⟨_, hl, ?_, ?_⟩
    · intro hk
      rw [fieldNameToArgName_other caseTable hi hl, if_pos hk]
    · intro hk
      rw [fieldNameToArgName_other caseTable hi hl]
      simp [hk]
  · simp [commonInitialisms]
  · refine ⟨?_, ?_, ?_, ?_⟩ <;>
      simp [fieldNameToArgName, LowercaseFirstRune, unicodeToLower, commonInitialisms,
        commonInitialismsKeys, isKeyword, goKeywords, bind, Except.bind]
  · decide

/-- Witness of C4 at the field name `Type`, which is no initialism and whose
lowercased form is a keyword. -/
theorem fieldNameToArgName_cases_witness :
    "Type" ≠ "" ∧
    ∃ l, LowercaseFirstRune id "Type" = .ok l ∧
      (isKeyword l = true → fieldNameToArgName id "Type" = .ok (l ++ "Value")) ∧
      (isKeyword l = false → fieldNameToArgName id "Type" = .ok l) :=
  ⟨by decide, (fieldNameToArgName_cases id "Type" (by decide)).2.1 (by decide)⟩

/-! ## Failure behaviour -/

/-- C9: `getWhereCondition` returns a result exactly on the six lowercase
names `eq`, `ne`, `lt`, `lte`, `gt`, `gte`; on every other string, the empty
string and `Eq` among them, it ends in `log.Fatalf`.  Hence
`NewBinaryFilterMethod`, on a context with a non-empty field name, returns a
method exactly when the operation name of the context is one of the six. -/
theorem getWhereCondition_returns_iff (name : String) :
    ((∃ r, getWhereCondition name = .ok r) ↔
      name ∈ ["eq", "ne", "lt", "lte", "gt", "gte"]) ∧
    (name ∉ ["eq", "ne", "lt", "lte", "gt", "gte"] →
      getWhereCondition name = .error (.noOperationForFilter name)) ∧
    getWhereCondition "" = .error (.noOperationForFilter "") ∧
    getWhereCondition "Eq" = .error (.noOperationForFilter "Eq") ∧
    getWhereCondition "EQ" = .error (.noOperationForFilter "EQ") ∧
    (∀ (caseTable : Char → Char) (ctx : QsFieldContext), ctx.fieldName ≠ "" →
      ((∃ m, NewBinaryFilterMethod caseTable ctx = .ok m) ↔
        ctx.operationName ∈ ["eq", "ne", "lt", "lte", "gt", "gte"]) ∧
      (ctx.operationName ∉ ["eq", "ne", "lt", "lte", "gt", "gte"] →
        NewBinaryFilterMethod caseTable ctx =
          .error (.noOperationForFilter ctx.operationName))) := by
  refine ⟨getWhereCondition_returns_iff_mem name, getWhereCondition_error_of_unknown name,
    by decide, by decide, by decide, ?_⟩
  intro caseTable ctx hf
  obtain ⟨a, ha⟩ := fieldNameToArgName_returns caseTable hf
  have herr : ctx.operationName ∉ ["eq", "ne", "lt", "lte", "gt", "gte"] →
      NewBinaryFilterMethod caseTable ctx =
        .error (.noOperationForFilter ctx.operationName) := fun hn =>
    NewBinaryFilterMethod_of_error caseTable ctx ha
      (getWhereCondition_error_of_unknown ctx.operationName hn)
  refine ⟨⟨?_, ?_⟩, herr⟩
  · rintro ⟨m, hm⟩
    by_contra hn
    rw [herr hn] at hm
    cases hm
  · intro hop
    obtain ⟨c, hc⟩ := (getWhereCondition_returns_iff_mem ctx.operationName).2 hop
    exact ⟨_, NewBinaryFilterMethod_of_ok caseTable ctx ha hc⟩

/-- Witness of C9: the context of a field `Name` with the operation `lte`
gets a method, and with the operation `Lte` it gets none. -/
theorem getWhereCondition_returns_iff_witness :
    (∃ m, NewBinaryFilterMethod id
      ⟨⟨"Name", "name", "string"⟩, "lte", ⟨⟨"User"⟩⟩⟩ = .ok m) ∧
    NewBinaryFilterMethod id ⟨⟨"Name", "name", "string"⟩, "Lte", ⟨⟨"User"⟩⟩⟩ =
      .error (.noOperationForFilter "Lte") := by
  have h := (getWhereCondition_returns_iff "lte").2.2.2.2.2 id
    ⟨⟨"Name", "name", "string"⟩, "lte", ⟨⟨"User"⟩⟩⟩ (by decide)
  have h' := (getWhereCondition_returns_iff "Lte").2.2.2.2.2 id
    ⟨⟨"Name", "name", "string"⟩, "Lte", ⟨⟨"User"⟩⟩⟩ (by decide)
  exact ⟨h.1.2 (by decide), h'.2 (by decide)⟩

/-- C10: `LowercaseFirstRune` returns exactly on the non-empty strings and
panics with an index out of range on the empty one; a result has as many runes
as the input, its first rune is `unicode.ToLower` of the first rune of the
input and the later runes are those of the input.  `fieldNameToArgName` too
returns exactly on the non-empty field names and panics on the empty one, which
is no key of the initialism table. -/
theorem LowercaseFirstRune_returns_iff (caseTable : Char → Char) (s : String) :
    ((∃ r, LowercaseFirstRune caseTable s = .ok r) ↔ s ≠ "") ∧
    LowercaseFirstRune caseTable "" = .error .indexOutOfRange ∧
    (∀ r, LowercaseFirstRune caseTable s = .ok r →
      r.length = s.length ∧
      r.data.head? = s.data.head?.map (unicodeToLower caseTable) ∧
      r.data.tail = s.data.tail) ∧
    ((∃ argName, fieldNameToArgName caseTable s = .ok argName) ↔ s ≠ "") ∧
    fieldNameToArgName caseTable "" = .error .indexOutOfRange ∧
    commonInitialisms "" = false := by
  refine ⟨⟨?_, ?_⟩, LowercaseFirstRune_empty caseTable, ?_,
    fieldNameToArgName_returns_iff caseTable s, fieldNameToArgName_empty caseTable,
    empty_not_initialism⟩
  · rintro ⟨r, hr⟩ hs
    subst hs
    rw [LowercaseFirstRune_empty] at hr
    cases hr
  · intro hs
    obtain ⟨r0, rest, _, hl⟩ := LowercaseFirstRune_ok_of_ne_empty caseTable hs
    exact ⟨_, hl⟩
  · intro r hr
    cases hd : s.data with
    | nil =>
      have hs : s = "" := String.ext (by simpa using hd)
      subst hs
      rw [LowercaseFirstRune_empty] at hr
      cases hr
    | cons r0 rest =>
      rw [LowercaseFirstRune_of_cons caseTable s r0 rest hd] at hr
      cases hr
      simp [String.length, hd]

/-- Witness of C10 at the string `Name`. -/
theorem LowercaseFirstRune_returns_iff_witness :
    LowercaseFirstRune id "Name" = .ok "name" ∧
    ("name".length = "Name".length ∧
      "name".data.head? = "Name".data.head?.map (unicodeToLower id) ∧
      "name".data.tail = "Name".data.tail) :=
  ⟨by decide, (LowercaseFirstRune_returns_iff id "Name").2.2.1 "name" (by decide)⟩

/-! ## Chained methods -/

/-- C1: every chained method built from a field context returns the QuerySet
type of that context, `T ++ "QuerySet"` for the type name `T` of the parsed
struct: the binary filter (which is built when the field name is non-empty and
the operation name is known), the IN and NOT IN filters (built when the field
name is non-empty), the NULL tests, preload and the two orderings; and the
limit method built from `q` returns `q`. -/
theorem chained_method_return_declaration (caseTable : Char → Char) (ctx : QsFieldContext)
    (q : String) :
    ctx.qsTypeName = ctx.QsStructContext.s.TypeName ++ "QuerySet" ∧
    (∀ m, NewBinaryFilterMethod caseTable ctx = .ok m →
      m.GetReturnValuesDeclaration = ctx.QsStructContext.s.TypeName ++ "QuerySet") ∧
    (ctx.fieldName ≠ "" → ctx.operationName ∈ ["eq", "ne", "lt", "lte", "gt", "gte"] →
      ∃ m, NewBinaryFilterMethod caseTable ctx = .ok m ∧
        m.GetReturnValuesDeclaration = ctx.QsStructContext.s.TypeName ++ "QuerySet") ∧
    (∀ m, NewInFilterMethod caseTable ctx = .ok m →
      m.GetReturnValuesDeclaration = ctx.QsStructContext.s.TypeName ++ "QuerySet") ∧
    (∀ m, NewNotInFilterMethod caseTable ctx = .ok m →
      m.GetReturnValuesDeclaration = ctx.QsStructContext.s.TypeName ++ "QuerySet") ∧
    (ctx.fieldName ≠ "" →
      (∃ m, NewInFilterMethod caseTable ctx = .ok m ∧
        m.GetReturnValuesDeclaration = ctx.QsStructContext.s.TypeName ++ "QuerySet") ∧
      (∃ m, NewNotInFilterMethod caseTable ctx = .ok m ∧
        m.GetReturnValuesDeclaration = ctx.QsStructContext.s.TypeName ++ "QuerySet")) ∧
    (NewIsNullMethod ctx).GetReturnValuesDeclaration =
      ctx.QsStructContext.s.TypeName ++ "QuerySet" ∧
    (NewIsNotNullMethod ctx).GetReturnValuesDeclaration =
      ctx.QsStructContext.s.TypeName ++ "QuerySet" ∧
    (NewPreloadMethod ctx).GetReturnValuesDeclaration =
      ctx.QsStructContext.s.TypeName ++ "QuerySet" ∧
    (NewOrderAscByMethod ctx).GetReturnValuesDeclaration =
      ctx.QsStructContext.s.TypeName ++ "QuerySet" ∧
    (NewOrderDescByMethod ctx).GetReturnValuesDeclaration =
      ctx.QsStructContext.s.TypeName ++ "QuerySet" ∧
    (NewLimitMethod caseTable q).GetReturnValuesDeclaration = q := by
  have hb : ∀ m, NewBinaryFilterMethod caseTable ctx = .ok m →
      m.GetReturnValuesDeclaration = ctx.QsStructContext.s.TypeName ++ "QuerySet" := by
    intro m hm
    unfold BinaryFilterMethod.GetReturnValuesDeclaration
    rw [NewBinaryFilterMethod_ok_inv caseTable ctx hm]
    rfl
  have hi : ∀ op sql m, newInFilterMethodImpl caseTable ctx op sql = .ok m →
      m.GetReturnValuesDeclaration = ctx.QsStructContext.s.TypeName ++ "QuerySet" := by
    intro op sql m hm
    unfold InFilterMethod.GetReturnValuesDeclaration
    rw [newInFilterMethodImpl_ok_inv caseTable ctx op sql hm]
    rfl
  refine ⟨rfl, hb, ?_, hi "In" "IN", hi "NotIn" "NOT IN", ?_, rfl, rfl, rfl, rfl, rfl, rfl⟩
  · intro hf hop
    obtain ⟨a, ha⟩ := fieldNameToArgName_returns caseTable hf
    obtain ⟨c, hc⟩ := (getWhereCondition_returns_iff_mem ctx.operationName).2 hop
    exact ⟨_, NewBinaryFilterMethod_of_ok caseTable ctx ha hc,
      hb _ (NewBinaryFilterMethod_of_ok caseTable ctx ha hc)⟩
  · intro hf
    obtain ⟨a, ha⟩ := fieldNameToArgName_returns caseTable hf
    exact ⟨⟨_, newInFilterMethodImpl_of_ok caseTable ctx "In" "IN" ha,
        hi _ _ _ (newInFilterMethodImpl_of_ok caseTable ctx "In" "IN" ha)⟩,
      ⟨_, newInFilterMethodImpl_of_ok caseTable ctx "NotIn" "NOT IN" ha,
        hi _ _ _ (newInFilterMethodImpl_of_ok caseTable ctx "NotIn" "NOT IN" ha)⟩⟩

/-- Witness of C1: the binary filter `gt` and the IN filter of the field `Age`
of the struct `User` are built and return `UserQuerySet`. -/
theorem chained_method_return_declaration_witness :
    (∃ m, NewBinaryFilterMethod id
        (((NewQsStructContext ⟨"User"⟩).FieldCtx ⟨"Age", "age", "int"⟩).WithOperationName "gt") =
          .ok m ∧ m.GetReturnValuesDeclaration = "UserQuerySet") ∧
    (∃ m, NewInFilterMethod id
        (((NewQsStructContext ⟨"User"⟩).FieldCtx ⟨"Age", "age", "int"⟩).WithOperationName "gt") =
          .ok m ∧ m.GetReturnValuesDeclaration = "UserQuerySet") :=
  have h := chained_method_return_declaration id
    (((NewQsStructContext ⟨"User"⟩).FieldCtx ⟨"Age", "age", "int"⟩).WithOperationName "gt") ""
  ⟨h.2.2.1 (by decide) (by decide), (h.2.2.2.2.2.1 (by decide)).1⟩

/-! ## Filter templates -/

/-- C5: for a field context with a non-empty field name, DB column name `D`,
field type name `T` and an operation name of `nameToOp` with operator `op`,
`NewBinaryFilterMethod` declares the one parameter `a : T` with
`a = fieldNameToArgName N`, and calls the ORM method `Where` on `qs.db` with
the argument text made of the quoted literal holding `D` in backticks, a
space, `op`, a space and `?`, then a comma, a space and `a`; the name bound to
the placeholder is the declared parameter name. -/
theorem NewBinaryFilterMethod_template (caseTable : Char → Char) (ctx : QsFieldContext)
    (op : String) (hN : ctx.fieldName ≠ "") (hop : (ctx.operationName, op) ∈ nameToOp) :
    ∃ a m, fieldNameToArgName caseTable ctx.fieldName = .ok a ∧
      NewBinaryFilterMethod caseTable ctx = .ok m ∧
      m.oneArgMethod = newOneArgMethod a ctx.fieldTypeName ∧
      m.oneArgMethod.argName = a ∧ m.oneArgMethod.argTypeName = ctx.f.TypeName ∧
      m.qsCallGormMethod.callGormMethod =
        newCallGormMethod "Where"
          ("\"`" ++ ctx.f.DBName ++ "` " ++ op ++ " ?\", " ++ m.oneArgMethod.argName) "qs.db" := by
  obtain ⟨a, ha⟩ := fieldNameToArgName_returns caseTable hN
  have hc := getWhereCondition_of_mem_nameToOp hop
  refine ⟨a, _, ha, NewBinaryFilterMethod_of_ok caseTable ctx ha hc, rfl, rfl, rfl, ?_⟩
  simp only [newQsCallGormMethod, sprintf_binary_filter]
  rfl

/-- Witness of C5: the `lte` filter of the field `Age` (column `age`, type
`int`) of the struct `User`. -/
theorem NewBinaryFilterMethod_template_witness :
    ∃ a m, fieldNameToArgName id "Age" = .ok a ∧
      NewBinaryFilterMethod id ⟨⟨"Age", "age", "int"⟩, "lte", ⟨⟨"User"⟩⟩⟩ = .ok m ∧
      m.oneArgMethod = newOneArgMethod a "int" ∧
      m.oneArgMethod.argName = a ∧ m.oneArgMethod.argTypeName = "int" ∧
      m.qsCallGormMethod.callGormMethod =
        newCallGormMethod "Where"
          ("\"`" ++ "age" ++ "` " ++ "<=" ++ " ?\", " ++ m.oneArgMethod.argName) "qs.db" :=
  NewBinaryFilterMethod_template id ⟨⟨"Age", "age", "int"⟩, "lte", ⟨⟨"User"⟩⟩⟩ "<="
    (by decide) (by decide)

/-- C6: for a field context with a non-empty field name, DB column name `D`
and field type name `T`, `NewInFilterMethod` and `NewNotInFilterMethod` declare
the two parameters `a : T` and `aRest : ...T` in this order, with
`a = fieldNameToArgName N`, carry the operation names `In` and `NotIn`, and
call the ORM method `Where` on `qs.db` with the quoted literal holding `D` in
backticks followed by `IN (?)`, respectively `NOT IN (?)`, and the argument
`iArgs`.  The two results agree in everything but the operation name and the
argument text, and neither depends on the operation name of the input
context. -/
theorem NewInFilterMethod_template (caseTable : Char → Char) (ctx : QsFieldContext)
    (hN : ctx.fieldName ≠ "") :
    ∃ a mIn mNotIn, fieldNameToArgName caseTable ctx.fieldName = .ok a ∧
      NewInFilterMethod caseTable ctx = .ok mIn ∧
      NewNotInFilterMethod caseTable ctx = .ok mNotIn ∧
      mIn.nArgsMethod.args =
        [newOneArgMethod a ctx.f.TypeName, newOneArgMethod (a ++ "Rest") ("..." ++ ctx.f.TypeName)] ∧
      mNotIn.nArgsMethod.args =
        [newOneArgMethod a ctx.f.TypeName, newOneArgMethod (a ++ "Rest") ("..." ++ ctx.f.TypeName)] ∧
      mIn.onFieldMethod.namedMethod.name = "In" ∧
      mNotIn.onFieldMethod.namedMethod.name = "NotIn" ∧
      mIn.qsCallGormMethod.callGormMethod =
        newCallGormMethod "Where" ("\"`" ++ ctx.f.DBName ++ "` IN (?)\", iArgs") "qs.db" ∧
      mNotIn.qsCallGormMethod.callGormMethod =
        newCallGormMethod "Where" ("\"`" ++ ctx.f.DBName ++ "` NOT IN (?)\", iArgs") "qs.db" ∧
      mNotIn =
        { mIn with
          onFieldMethod := { mIn.onFieldMethod with namedMethod := newNamedMethod "NotIn" },
          qsCallGormMethod :=
            { callGormMethod := mIn.qsCallGormMethod.callGormMethod.setGormMethodArgs
                ("\"`" ++ ctx.f.DBName ++ "` NOT IN (?)\", iArgs") } } ∧
      (∀ operationName,
        NewInFilterMethod caseTable (ctx.WithOperationName operationName) = .ok mIn ∧
        NewNotInFilterMethod caseTable (ctx.WithOperationName operationName) = .ok mNotIn) := by
  obtain ⟨a, ha⟩ := fieldNameToArgName_returns caseTable hN
  have e1 : "\"`" ++ ctx.f.DBName ++ "` " ++ "IN" ++ " (?)\", iArgs" =
      "\"`" ++ ctx.f.DBName ++ "` IN (?)\", iArgs" := by
    apply String.ext; simp
  have e2 : "\"`" ++ ctx.f.DBName ++ "` " ++ "NOT IN" ++ " (?)\", iArgs" =
      "\"`" ++ ctx.f.DBName ++ "` NOT IN (?)\", iArgs" := by
    apply String.ext; simp
  refine ⟨a, _, _, ha, newInFilterMethodImpl_of_ok caseTable ctx "In" "IN" ha,
    newInFilterMethodImpl_of_ok caseTable ctx "NotIn" "NOT IN" ha, rfl, rfl, rfl, rfl,
    ?_, ?_, ?_, ?_⟩
  · simp only [newQsCallGormMethod, sprintf_in_filter]
    rw [← e1]; rfl
  · simp only [newQsCallGormMethod, sprintf_in_filter]
    rw [← e2]; rfl
  · simp only [newQsCallGormMethod, sprintf_in_filter, callGormMethod.setGormMethodArgs,
      newCallGormMethod, newOnFieldMethod, QsFieldContext.fieldDBName]
    rw [e2]
  · intro operationName
    exact ⟨newInFilterMethodImpl_of_ok caseTable (ctx.WithOperationName operationName)
        "In" "IN" ha,
      newInFilterMethodImpl_of_ok caseTable (ctx.WithOperationName operationName)
        "NotIn" "NOT IN" ha⟩

/-- Witness of C6: the IN and NOT IN filters of the field `Age` (column `age`,
type `int`) of the struct `User`. -/
theorem NewInFilterMethod_template_witness :
    ∃ mIn mNotIn,
      NewInFilterMethod id ⟨⟨"Age", "age", "int"⟩, "gt", ⟨⟨"User"⟩⟩⟩ = .ok mIn ∧
      NewNotInFilterMethod id ⟨⟨"Age", "age", "int"⟩, "gt", ⟨⟨"User"⟩⟩⟩ = .ok mNotIn ∧
      mIn.nArgsMethod.args = [⟨"age", "int"⟩, ⟨"ageRest", "...int"⟩] ∧
      mIn.qsCallGormMethod.callGormMethod = ⟨"Where", "\"`age` IN (?)\", iArgs", "qs.db"⟩ ∧
      mNotIn.qsCallGormMethod.callGormMethod =
        ⟨"Where", "\"`age` NOT IN (?)\", iArgs", "qs.db"⟩ := by
  obtain ⟨a, mIn, mNotIn, ha, h1, h2, h3, -, -, -, h4, h5, -, -⟩ :=
    NewInFilterMethod_template id ⟨⟨"Age", "age", "int"⟩, "gt", ⟨⟨"User"⟩⟩⟩ (by decide)
  have ha' : a = "age" := by
    have : fieldNameToArgName id "Age" = .ok "age" := by decide
    rw [show (⟨⟨"Age", "age", "int"⟩, "gt", ⟨⟨"User"⟩⟩⟩ : QsFieldContext).fieldName = "Age"
      from rfl, this] at ha
    cases ha; rfl
  subst ha'
  exact ⟨mIn, mNotIn, h1, h2, h3, h4, h5⟩

/-- C7: for a field context with DB column name `D`, `NewIsNullMethod` calls
the ORM method `Where` on `qs.db` with the quoted literal `D IS NULL` and
`NewIsNotNullMethod` with the quoted literal `D IS NOT NULL`, the column name,
one space and the predicate, with no placeholder and no further argument; the
methods take no parameter, carry the operation names `IsNull` and `IsNotNull`,
and do not depend on the operation name of the input context. -/
theorem NewIsNullMethod_template (ctx : QsFieldContext) :
    (NewIsNullMethod ctx).qsCallGormMethod.callGormMethod =
      newCallGormMethod "Where" ("\"" ++ ctx.f.DBName ++ " IS NULL\"") "qs.db" ∧
    (NewIsNotNullMethod ctx).qsCallGormMethod.callGormMethod =
      newCallGormMethod "Where" ("\"" ++ ctx.f.DBName ++ " IS NOT NULL\"") "qs.db" ∧
    (NewIsNullMethod ctx).onFieldMethod = newOnFieldMethod "IsNull" ctx.f.Name ∧
    (NewIsNotNullMethod ctx).onFieldMethod = newOnFieldMethod "IsNotNull" ctx.f.Name ∧
    (NewIsNullMethod ctx).onFieldMethod.namedMethod.name = "IsNull" ∧
    (NewIsNotNullMethod ctx).onFieldMethod.namedMethod.name = "IsNotNull" ∧
    (∀ operationName,
      NewIsNullMethod (ctx.WithOperationName operationName) = NewIsNullMethod ctx ∧
      NewIsNotNullMethod (ctx.WithOperationName operationName) = NewIsNotNullMethod ctx) := by
  have e1 : "\"" ++ ctx.f.DBName ++ " " ++ "IS NULL" ++ "\"" =
      "\"" ++ ctx.f.DBName ++ " IS NULL\"" := by
    apply String.ext; simp
  have e2 : "\"" ++ ctx.f.DBName ++ " " ++ "IS NOT NULL" ++ "\"" =
      "\"" ++ ctx.f.DBName ++ " IS NOT NULL\"" := by
    apply String.ext; simp
  refine ⟨?_, ?_, rfl, rfl, rfl, rfl, fun _ => ⟨rfl, rfl⟩⟩
  · simp only [NewIsNullMethod, newUnaryFilterMethod, newQsCallGormMethod,
      sprintf_unary_filter]
    rw [← e1]; rfl
  · simp only [NewIsNotNullMethod, newUnaryFilterMethod, newQsCallGormMethod,
      sprintf_unary_filter]
    rw [← e2]; rfl

/-! ## Parameter names and the other identifiers of a generated method -/

/-- C8, as the code has it: for every field context with a non-empty field
name `N`, `NewInFilterMethod` and `NewNotInFilterMethod` return methods with
receiver `qs` whose body declares the local variable `iArgs` and whose two
parameters are named `a = fieldNameToArgName N` and `a ++ "Rest"`; the two
names differ, the second is neither the receiver name nor `iArgs`, and the
first differs from the receiver name whenever `LowercaseFirstRune N` is not
`qs` and from `iArgs` whenever `LowercaseFirstRune N` is not `iArgs`.
Likewise `NewBinaryFilterMethod`, for a known operation name, returns a method
with receiver `qs` whose one parameter is named `a`, which differs from the
receiver name whenever `LowercaseFirstRune N` is not `qs`. -/
theorem filter_parameter_names_distinct (caseTable : Char → Char) (ctx : QsFieldContext)
    (hN : ctx.fieldName ≠ "") :
    ∃ l mIn mNotIn, LowercaseFirstRune caseTable ctx.fieldName = .ok l ∧
      NewInFilterMethod caseTable ctx = .ok mIn ∧
      NewNotInFilterMethod caseTable ctx = .ok mNotIn ∧
      (∀ m ∈ [mIn, mNotIn],
        m.chainedQuerySetMethod.baseQuerySetMethod.structMethod.receiverName = "qs" ∧
        m.nArgsMethod.args.length = 2 ∧
        fieldNameToArgName caseTable ctx.fieldName = .ok (m.nArgsMethod.getArgName 0) ∧
        m.nArgsMethod.getArgName 1 = m.nArgsMethod.getArgName 0 ++ "Rest" ∧
        (∀ wrapToGormScope callGormBody,
          m.GetBody wrapToGormScope callGormBody =
            "iArgs := []interface\x7b\x7d\x7b" ++ m.nArgsMethod.getArgName 0 ++
              "\x7d\n\tfor _, arg := range " ++ m.nArgsMethod.getArgName 1 ++
              " \x7b\n\t\tiArgs = append(iArgs, arg)\n\t\x7d\n\t" ++
              wrapToGormScope (callGormBody m.qsCallGormMethod.callGormMethod)) ∧
        m.nArgsMethod.getArgName 0 ≠ m.nArgsMethod.getArgName 1 ∧
        m.nArgsMethod.getArgName 1 ≠
          m.chainedQuerySetMethod.baseQuerySetMethod.structMethod.receiverName ∧
        m.nArgsMethod.getArgName 1 ≠ "iArgs" ∧
        (l ≠ "qs" → m.nArgsMethod.getArgName 0 ≠
          m.chainedQuerySetMethod.baseQuerySetMethod.structMethod.receiverName) ∧
        (l ≠ "iArgs" → m.nArgsMethod.getArgName 0 ≠ "iArgs")) ∧
      (ctx.operationName ∈ ["eq", "ne", "lt", "lte", "gt", "gte"] →
        ∃ mBin, NewBinaryFilterMethod caseTable ctx = .ok mBin ∧
          mBin.chainedQuerySetMethod.baseQuerySetMethod.structMethod.receiverName = "qs" ∧
          fieldNameToArgName caseTable ctx.fieldName = .ok mBin.oneArgMethod.argName ∧
          (l ≠ "qs" → mBin.oneArgMethod.argName ≠
            mBin.chainedQuerySetMethod.baseQuerySetMethod.structMethod.receiverName)) := by
  obtain ⟨a, l, ha, hl, h1, h2, h3, h4, h5⟩ := fieldNameToArgName_apart caseTable ctx.fieldName hN
  have hshape : ∀ operationName sql : String,
      ∀ m, newInFilterMethodImpl caseTable ctx operationName sql = .ok m →
        m.chainedQuerySetMethod.baseQuerySetMethod.structMethod.receiverName = "qs" ∧
        m.nArgsMethod.args.length = 2 ∧
        fieldNameToArgName caseTable ctx.fieldName = .ok (m.nArgsMethod.getArgName 0) ∧
        m.nArgsMethod.getArgName 1 = m.nArgsMethod.getArgName 0 ++ "Rest" ∧
        (∀ wrapToGormScope callGormBody,
          m.GetBody wrapToGormScope callGormBody =
            "iArgs := []interface\x7b\x7d\x7b" ++ m.nArgsMethod.getArgName 0 ++
              "\x7d\n\tfor _, arg := range " ++ m.nArgsMethod.getArgName 1 ++
              " \x7b\n\t\tiArgs = append(iArgs, arg)\n\t\x7d\n\t" ++
              wrapToGormScope (callGormBody m.qsCallGormMethod.callGormMethod)) ∧
        m.nArgsMethod.getArgName 0 ≠ m.nArgsMethod.getArgName 1 ∧
        m.nArgsMethod.getArgName 1 ≠
          m.chainedQuerySetMethod.baseQuerySetMethod.structMethod.receiverName ∧
        m.nArgsMethod.getArgName 1 ≠ "iArgs" ∧
        (l ≠ "qs" → m.nArgsMethod.getArgName 0 ≠
          m.chainedQuerySetMethod.baseQuerySetMethod.structMethod.receiverName) ∧
        (l ≠ "iArgs" → m.nArgsMethod.getArgName 0 ≠ "iArgs") := by
    intro operationName sql m hm
    rw [newInFilterMethodImpl_of_ok caseTable ctx operationName sql ha] at hm
    cases hm
    refine ⟨rfl, rfl, ha, rfl, ?_, h1, h2, h3, h4, h5⟩
    intro wrapToGormScope callGormBody
    simp only [InFilterMethod.GetBody, sprintf_in_body]
    rfl
  refine ⟨l, _, _, hl, newInFilterMethodImpl_of_ok caseTable ctx "In" "IN" ha,
    newInFilterMethodImpl_of_ok caseTable ctx "NotIn" "NOT IN" ha, ?_, ?_⟩
  · intro m hm
    simp only [List.mem_cons, List.mem_singleton, List.not_mem_nil, or_false] at hm
    rcases hm with hm | hm
    · exact hshape "In" "IN" m
        (by rw [hm]; exact newInFilterMethodImpl_of_ok caseTable ctx "In" "IN" ha)
    · exact hshape "NotIn" "NOT IN" m
        (by rw [hm]; exact newInFilterMethodImpl_of_ok caseTable ctx "NotIn" "NOT IN" ha)
  · intro hop
    obtain ⟨c, hc⟩ := (getWhereCondition_returns_iff_mem ctx.operationName).2 hop
    exact ⟨_, NewBinaryFilterMethod_of_ok caseTable ctx ha hc, rfl, ha, h4⟩

/-- Witness of C8 as amended: the IN, NOT IN and `gt` filters of the field
`Age` of the struct `User` declare the parameters `age` and `ageRest`, none of
which is the receiver name or `iArgs`. -/
theorem filter_parameter_names_distinct_witness :
    ∃ mIn mNotIn mBin,
      NewInFilterMethod id ⟨⟨"Age", "age", "int"⟩, "gt", ⟨⟨"User"⟩⟩⟩ = .ok mIn ∧
      NewNotInFilterMethod id ⟨⟨"Age", "age", "int"⟩, "gt", ⟨⟨"User"⟩⟩⟩ = .ok mNotIn ∧
      NewBinaryFilterMethod id ⟨⟨"Age", "age", "int"⟩, "gt", ⟨⟨"User"⟩⟩⟩ = .ok mBin ∧
      mIn.nArgsMethod.getArgName 0 ≠ mIn.nArgsMethod.getArgName 1 ∧
      mIn.nArgsMethod.getArgName 0 ≠ "qs" ∧ mIn.nArgsMethod.getArgName 0 ≠ "iArgs" ∧
      mIn.nArgsMethod.getArgName 1 ≠ "qs" ∧ mIn.nArgsMethod.getArgName 1 ≠ "iArgs" ∧
      mNotIn.nArgsMethod.getArgName 0 ≠ "qs" ∧ mNotIn.nArgsMethod.getArgName 0 ≠ "iArgs" ∧
      mBin.oneArgMethod.argName ≠ "qs" := by
  obtain ⟨l, mIn, mNotIn, hl, hIn, hNotIn, hm, hb⟩ :=
    filter_parameter_names_distinct id ⟨⟨"Age", "age", "int"⟩, "gt", ⟨⟨"User"⟩⟩⟩ (by decide)
  have hl' : l = "age" := by
    have e : LowercaseFirstRune id "Age" = .ok "age" := by decide
    have hl2 : LowercaseFirstRune id "Age" = .ok l := hl
    rw [e] at hl2
    cases hl2; rfl
  subst hl'
  obtain ⟨r1, -, -, -, -, d1, d2, d3, d4, d5⟩ := hm mIn (by simp)
  obtain ⟨r2, -, -, -, -, -, -, -, e4, e5⟩ := hm mNotIn (by simp)
  obtain ⟨mBin, hBin, r3, -, b4⟩ := hb (by decide)
  rw [r1] at d2 d4
  rw [r2] at e4
  rw [r3] at b4
  exact ⟨mIn, mNotIn, mBin, hIn, hNotIn, hBin, d1, d4 (by decide), d5 (by decide), d2, d3,
    e4 (by decide), e5 (by decide), b4 (by decide)⟩

/-- Counterexample to C8 as stated: the non-empty field name `Qs` gets the
parameter name `qs`, the receiver name, so the binary filter of that field
declares a parameter named like its receiver; and the non-empty field name
`IArgs` gets the parameter name `iArgs`, the local variable that the body of
the IN filter declares. -/
theorem argName_clash_counterexample :
    ("Qs" ≠ "" ∧ ∀ caseTable, fieldNameToArgName caseTable "Qs" = .ok qsReceiverName) ∧
    ("IArgs" ≠ "" ∧ ∀ caseTable, fieldNameToArgName caseTable "IArgs" = .ok "iArgs") ∧
    (∀ caseTable, ∃ m,
      NewBinaryFilterMethod caseTable ⟨⟨"Qs", "qs", "string"⟩, "eq", ⟨⟨"User"⟩⟩⟩ = .ok m ∧
      m.oneArgMethod.argName =
        m.chainedQuerySetMethod.baseQuerySetMethod.structMethod.receiverName) ∧
    (∀ caseTable, ∃ m,
      NewInFilterMethod caseTable ⟨⟨"IArgs", "i_args", "int"⟩, "", ⟨⟨"User"⟩⟩⟩ = .ok m ∧
      m.nArgsMethod.getArgName 0 = "iArgs" ∧
      ∀ wrapToGormScope callGormBody,
        m.GetBody wrapToGormScope callGormBody =
          "iArgs := []interface\x7b\x7d\x7biArgs\x7d\n\tfor _, arg := range iArgsRest \x7b\n\t\tiArgs = append(iArgs, arg)\n\t\x7d\n\t" ++
            wrapToGormScope (callGormBody ⟨"Where", "\"`i_args` IN (?)\", iArgs", "qs.db"⟩)) := by
  have hq : ∀ caseTable, fieldNameToArgName caseTable "Qs" = .ok qsReceiverName := by
    intro caseTable
    simp [fieldNameToArgName, LowercaseFirstRune, unicodeToLower, commonInitialisms,
      commonInitialismsKeys, isKeyword, goKeywords, bind, Except.bind, qsReceiverName]
  have hi : ∀ caseTable, fieldNameToArgName caseTable "IArgs" = .ok "iArgs" := by
    intro caseTable
    simp [fieldNameToArgName, LowercaseFirstRune, unicodeToLower, commonInitialisms,
      commonInitialismsKeys, isKeyword, goKeywords, bind, Except.bind]
  refine ⟨⟨by decide, hq⟩, ⟨by decide, hi⟩, ?_, ?_⟩
  · intro caseTable
    have hc : getWhereCondition "eq" = .ok "= ?" := by decide
    exact ⟨_, NewBinaryFilterMethod_of_ok caseTable ⟨⟨"Qs", "qs", "string"⟩, "eq", ⟨⟨"User"⟩⟩⟩
      (hq caseTable) hc, rfl⟩
  · intro caseTable
    refine ⟨_, newInFilterMethodImpl_of_ok caseTable
      ⟨⟨"IArgs", "i_args", "int"⟩, "", ⟨⟨"User"⟩⟩⟩ "In" "IN" (hi caseTable), rfl, ?_⟩
    intro wrapToGormScope callGormBody
    rfl

end QuerySet
